import Mathlib

/-!
Shallow embedding of the juju-charm repository's bundle verifier
(`src/bundledata.go`) and repository backends (`src/charmrepo/repo.go`),
with theorems settling the frozen claims about them.

Go strings are modelled as Lean `String`, Go `int` as `Int` (no claim touches
overflow), Go maps as association lists (`List (key × value)`; Go guarantees
distinct keys, which appears as `Nodup` hypotheses where it matters; Go's
randomized map iteration order is fixed to list order, which only affects the
ordering of accumulated errors, not their multiset).  A Go `panic` is modelled
as `Option.none` at the function's result.  Go regular expressions over the
juju/names snippets are implemented as executable character-list matchers.
-/

set_option autoImplicit false

namespace JujuCharm

/-! ## Character / string machinery (structural, kernel-evaluable) -/

def isLowerCh (c : Char) : Bool := 'a' ≤ c && c ≤ 'z'

def isDigitCh (c : Char) : Bool := '0' ≤ c && c ≤ '9'

def isAlnumLower (c : Char) : Bool := isLowerCh c || isDigitCh c

/-- Split a character list on a separator character; mirrors Go
`strings.Split` / regex decomposition at a character that cannot occur
inside the surrounding snippets. -/
def splitOnCh (sep : Char) : List Char → List (List Char)
  | [] => [[]]
  | c :: cs =>
    match splitOnCh sep cs with
    | [] => if c = sep then [[], []] else [[c]]
    | s :: ss => if c = sep then [] :: s :: ss else (c :: s) :: ss

def natOfDigits (cs : List Char) : Nat :=
  cs.foldl (fun n c => 10 * n + (c.toNat - 48)) 0

/-- Go `strconv.Atoi` with the error discarded, as done at `ParsePlacement`'s
only call site (`up.Unit, _ = strconv.Atoi(unitStr)`): a string that is not a
valid integer yields the zero value `0`. -/
def atoiOr0 (s : String) : Int :=
  match s.toList with
  | '-' :: cs =>
    if !cs.isEmpty && cs.all isDigitCh then -(Int.ofNat (natOfDigits cs)) else 0
  | '+' :: cs =>
    if !cs.isEmpty && cs.all isDigitCh then Int.ofNat (natOfDigits cs) else 0
  | cs =>
    if !cs.isEmpty && cs.all isDigitCh then Int.ofNat (natOfDigits cs) else 0

/-- First-match lookup in an association list: the semantics of indexing a Go
map whose keys are distinct. -/
def lookup {α : Type} (m : List (String × α)) (k : String) : Option α :=
  match m with
  | [] => none
  | kv :: rest => if kv.1 = k then some kv.2 else lookup rest k

/-! ## The juju/names snippets (external collaborator, per its definitions)

`NumberSnippet = "(?:0|[1-9][0-9]*)"`,
`ContainerTypeSnippet = "[a-z]+"`,
`ServiceSnippet = "(?:[a-z][a-z0-9]*(?:-[a-z0-9]*[a-z][a-z0-9]*)*)"`,
`RelationSnippet = "[a-z][a-z0-9]*(?:[_-][a-z0-9]+)*"`. -/

def matchNumberL : List Char → Bool
  | [] => false
  | c :: cs =>
    if c = '0' then cs.isEmpty
    else ('1' ≤ c && c ≤ '9') && cs.all isDigitCh

def matchNumber (s : String) : Bool := matchNumberL s.toList

def matchContainerType (s : String) : Bool :=
  !s.toList.isEmpty && s.toList.all isLowerCh

/-- `[a-z][a-z0-9]*`: the leading hyphen-separated segment of a service name. -/
def serviceSeg1 : List Char → Bool
  | [] => false
  | c :: cs => isLowerCh c && cs.all isAlnumLower

/-- `[a-z0-9]*[a-z][a-z0-9]*`: a later hyphen-separated segment of a service
name (all lowercase alphanumeric, containing at least one letter). -/
def serviceSegN (cs : List Char) : Bool :=
  cs.all isAlnumLower && cs.any isLowerCh

def matchService (s : String) : Bool :=
  match splitOnCh '-' s.toList with
  | [] => false
  | seg :: rest => serviceSeg1 seg && rest.all serviceSegN

/-- `[a-z0-9]+`: a later `[_-]`-separated segment of a relation name. -/
def relSegN (cs : List Char) : Bool :=
  !cs.isEmpty && cs.all isAlnumLower

/-- Relation names treat `_` and `-` as interchangeable separators, so the
match normalizes `_` to `-` and splits. -/
def matchRelationName (s : String) : Bool :=
  match splitOnCh '-' (s.toList.map (fun c => if c = '_' then '-' else c)) with
  | [] => false
  | seg :: rest => serviceSeg1 seg && rest.all relSegN

/-! ## `parseRelation` (src/bundledata.go lines 352-360)

`validServiceRelation = "^(" + ServiceSnippet + "):(" + RelationSnippet + ")$"`.
Neither snippet can contain `:`, so a match is exactly: one colon, service name
before it, relation name after it. -/

def listToStr (cs : List Char) : String := String.mk cs

def parseRelation (svcRel : String) : Option (String × String) :=
  match splitOnCh ':' svcRel.toList with
  | [svc, rel] =>
    if matchService (listToStr svc) && matchRelationName (listToStr rel) then
      some (listToStr svc, listToStr rel)
    else none
  | _ => none

/-! ## `ParsePlacement` (src/bundledata.go lines 271-328)

The regexp source text is
`"^(?:(container):)?(?:(service(/number)?)|(number))$"`; after snippet
substitution its capture groups are `m[1] = container`,
`m[2] = service(/number)?` (the service name together with any `/unit` part),
`m[3] = (/number)?` (including the slash), `m[4] = number`.  None of the
snippets can contain `:` or `/`, and the service and number alternatives are
distinguished by their first character (letter vs digit), so submatching is
deterministic. -/

structure UnitPlacement where
  containerType : String
  machine : String
  service : String
  unit : Int
  deriving Repr, DecidableEq

/-- The Go `validPlacement.FindStringSubmatch`, returning
`(m[1], m[2], m[3], m[4])` on a match. -/
def rawPlacement (p : String) : Option (String × String × String × String) :=
  let body : String → List Char → Option (String × String × String × String) :=
    fun ct b =>
      match splitOnCh '/' b with
      | [x] =>
        if matchService (listToStr x) then some (ct, listToStr x, "", "")
        else if matchNumberL x then some (ct, "", "", listToStr x)
        else none
      | [svc, num] =>
        if matchService (listToStr svc) && matchNumberL num then
          some (ct, listToStr svc ++ "/" ++ listToStr num,
                "/" ++ listToStr num, "")
        else none
      | _ => none
  match splitOnCh ':' p.toList with
  | [b] => body "" b
  | [ct, b] =>
    if matchContainerType (listToStr ct) then body (listToStr ct) b else none
  | _ => none

def parsePlacement (p : String) : Option UnitPlacement :=
  match rawPlacement p with
  | none => none
  | some (m1, m2, m3, m4) =>
    let up : UnitPlacement :=
      { containerType := m1, service := m2, machine := m4,
        unit := if m3 ≠ "" then atoiOr0 m3 else -1 }
    if up.service = "new" then
      if up.unit ≠ -1 then none
      else some { up with machine := "new", service := "" }
    else some up

/-! ## Bundle data model (src/bundledata.go lines 15-117)

`Options` and `Annotations` are never read by `Verify` or its helpers and are
omitted.  `verifyConstraints` (caller-supplied) and `ParseURL` (the identity
model, consumed here only for its success/failure) are parameters. -/

structure MachineSpec where
  constraints : String
  deriving Repr, DecidableEq

structure ServiceSpec where
  charm : String
  numUnits : Int
  «to» : List String
  constraints : String
  deriving Repr, DecidableEq

structure BundleData where
  services : List (String × ServiceSpec)
  machines : List (String × MachineSpec)
  series : String
  relations : List (List String)
  deriving Repr, DecidableEq

/-- The errors accumulated by `bundleDataVerifier`; each constructor is one
`addErrorf` call site, carrying the values interpolated into its format
string. -/
inductive VerifyError where
  | relationCount (idx : Nat) (n : Nat)
  | invalidRelationSyntax (svcRel : String)
  | serviceNotDefined (svc : String) (relPair : List String)
  | selfRelation (relPair : List String)
  | negativeUnits (svc : String)
  | invalidCharmURL (svc : String)
  | invalidServiceConstraints (svc : String)
  | tooManyUnits (svc : String)
  | invalidPlacementSyntax (p : String)
  | placementServiceNotExist (p : String)
  | placementUnitTooHigh (p : String) (numUnits : Int)
  | placementMachineNotExist (p : String)
  | invalidMachineId (id : String)
  | invalidMachineConstraints (id : String)
  | machineNotReferred (id : String)
  deriving Repr, DecidableEq

/-- `machineRefCounts`: reference counts of the declared machines. -/
abbrev RefCounts := List (String × Nat)

/-- `verifier.machineRefCounts[k]++` (only ever executed for a key present in
`bd.Machines`, hence present in the counts). -/
def incr (rc : RefCounts) (k : String) : RefCounts :=
  rc.map (fun kv => if kv.1 = k then (kv.1, kv.2 + 1) else kv)

/-- Verifier state while walking the services: accumulated errors plus the
machine reference counts. -/
abbrev VState := List VerifyError × RefCounts

/-! ### `verifyRelations` (src/bundledata.go lines 330-350)

The inner loop writes `svcPair[i] = svc` into a `[2]string`; an index `i ≥ 2`
(a relation entry with more than two elements) is a Go runtime panic, modelled
as `none`. -/

/-- The inner `for i, svcRel := range relPair` loop: threads the index `i`,
the error list and the `svcPair` array. -/
def relElemLoop (bd : BundleData) (relPair : List String) :
    List String → Nat → List VerifyError → String × String →
    Option (List VerifyError × (String × String))
  | [], _, errs, pair => some (errs, pair)
  | svcRel :: rest, i, errs, pair =>
    let parsed := parseRelation svcRel
    let svc := match parsed with | some sr => sr.1 | none => ""
    let errs1 := errs ++
      (match parsed with
       | some _ => []
       | none => [VerifyError.invalidRelationSyntax svcRel])
    let errs2 := errs1 ++
      (match lookup bd.services svc with
       | some _ => []
       | none => [VerifyError.serviceNotDefined svc relPair])
    match i with
    | 0 => relElemLoop bd relPair rest 1 errs2 (svc, pair.2)
    | 1 => relElemLoop bd relPair rest 2 errs2 (pair.1, svc)
    | _ => none

def relLoop (bd : BundleData) :
    List (List String) → Nat → List VerifyError → Option (List VerifyError)
  | [], _, errs => some errs
  | relPair :: rest, i, errs =>
    let errs1 := errs ++
      (if relPair.length ≠ 2 then
        [VerifyError.relationCount i relPair.length] else [])
    match relElemLoop bd relPair relPair 0 errs1 ("", "") with
    | none => none
    | some (errs2, pair) =>
      let errs3 := errs2 ++
        (if pair.1 = pair.2 then [VerifyError.selfRelation relPair] else [])
      relLoop bd rest (i + 1) errs3

def verifyRelations (bd : BundleData) : Option (List VerifyError) :=
  relLoop bd bd.relations 0 []

/-! ### `verifyPlacement` (src/bundledata.go lines 242-269) -/

def verifyPlacementStep (bd : BundleData) (st : VState) (p : String) : VState :=
  match parsePlacement p with
  | none => (st.1 ++ [VerifyError.invalidPlacementSyntax p], st.2)
  | some up =>
    if up.service ≠ "" then
      match lookup bd.services up.service with
      | none => (st.1 ++ [VerifyError.placementServiceNotExist p], st.2)
      | some spec =>
        if 0 ≤ up.unit ∧ spec.numUnits - 1 ≤ up.unit then
          (st.1 ++ [VerifyError.placementUnitTooHigh p spec.numUnits], st.2)
        else st
    else if up.machine = "new" then st
    else
      match lookup bd.machines up.machine with
      | none => (st.1 ++ [VerifyError.placementMachineNotExist p], st.2)
      | some _ => (st.1, incr st.2 up.machine)

def verifyPlacement (bd : BundleData) (ts : List String) (st : VState) : VState :=
  ts.foldl (verifyPlacementStep bd) st

/-! ### `verifyServices` (src/bundledata.go lines 224-240) -/

def verifyServiceStep (bd : BundleData) (charmOk vc : String → Bool)
    (st : VState) (entry : String × ServiceSpec) : VState :=
  let name := entry.1
  let svc := entry.2
  let errs := st.1 ++
    (if svc.numUnits < 0 then [VerifyError.negativeUnits name] else []) ++
    (if charmOk svc.charm then [] else [VerifyError.invalidCharmURL name]) ++
    (if vc svc.constraints then []
     else [VerifyError.invalidServiceConstraints name]) ++
    (if (svc.«to».length : Int) > svc.numUnits then
      [VerifyError.tooManyUnits name] else [])
  verifyPlacement bd svc.«to» (errs, st.2)

def verifyServices (bd : BundleData) (charmOk vc : String → Bool)
    (st : VState) : VState :=
  bd.services.foldl (verifyServiceStep bd charmOk vc) st

/-! ### `verifyMachines` (src/bundledata.go lines 211-222)

`validMachineId` is `"^" + NumberSnippet + "$"`. -/

def verifyMachines (bd : BundleData) (vc : String → Bool)
    (errs : List VerifyError) : List VerifyError :=
  bd.machines.foldl
    (fun acc kv =>
      acc ++
        (if matchNumber kv.1 then [] else [VerifyError.invalidMachineId kv.1]) ++
        (if vc kv.2.constraints then []
         else [VerifyError.invalidMachineConstraints kv.1]))
    errs

/-! ### `Verify` (src/bundledata.go lines 189-209)

The result is `none` when the Go code panics; otherwise `some errs`, where
`errs = []` corresponds to `Verify` returning `nil` and a nonempty `errs` to
returning `&VerificationError{errs}`. -/

def initCounts (bd : BundleData) : RefCounts :=
  bd.machines.map (fun kv => (kv.1, 0))

def orphanErrors (rc : RefCounts) : List VerifyError :=
  rc.foldl
    (fun acc kv =>
      if kv.2 = 0 then acc ++ [VerifyError.machineNotReferred kv.1] else acc)
    []

def verify (bd : BundleData) (charmOk vc : String → Bool) :
    Option (List VerifyError) :=
  match verifyRelations bd with
  | none => none
  | some relErrs =>
    let st := verifyServices bd charmOk vc (relErrs, initCounts bd)
    let errs := verifyMachines bd vc st.1
    some (errs ++ orphanErrors st.2)

/-! ## Identity model

Modelled from the spec: the identity/URL value type (`charm.URL`) lives in the
repository's url.go, which is not among the provided sources; per spec §3 and
§4.1 it is `{schema, user, series, name, revision ≥ -1}`, immutable, with
`WithRevision` returning a new value. -/

structure CURL where
  schema : String
  user : String
  series : String
  name : String
  revision : Int
  deriving Repr, DecidableEq

def CURL.withRevision (u : CURL) (r : Int) : CURL := { u with revision := r }

/-! ## `CharmRevision` and `charmStore.revisions`
(src/charmrepo/repo.go lines 52-58 and 238-261) -/

/-- `CharmRevision`, generic in the error type so the remote and local
backends can carry their own kinds of per-item error.  Field defaults are the
Go zero values. -/
structure CharmRev (ε : Type) where
  revision : Int := 0
  sha256 : String := ""
  err : Option ε := none
  deriving Repr, DecidableEq

/-- `InfoResponse` (the fields `revisions` reads).  `errors` distinguishes a
nil slice (`none`) from a present list, as the Go code tests
`info.Errors == nil`. -/
structure InfoResponse where
  canonicalURL : String := ""
  revision : Int := 0
  sha256 : String := ""
  errors : Option (List String) := none
  warnings : List String := []
  deriving Repr, DecidableEq

/-- The per-item error produced by `revisions`: either the verbatim
single "charm not found" message, or the aggregate "charm info errors"
message carrying the identity and the joined error list. -/
inductive RevErr where
  | notFound (msg : String)
  | infoErrors (curl : CURL) (errs : List String)
  deriving Repr, DecidableEq

def hasPre (pre s : String) : Bool := pre.toList.isPrefixOf s.toList

/-- The body of `revisions`' loop for one `(curl, info)` pair (warnings are
only logged and do not influence the result). -/
def revisionOf (curl : CURL) (info : InfoResponse) : CharmRev RevErr :=
  match info.errors with
  | none => { revision := info.revision, sha256 := info.sha256 }
  | some es =>
    match es with
    | [e] =>
      if hasPre "charm not found" e then { err := some (RevErr.notFound e) }
      else { err := some (RevErr.infoErrors curl es) }
    | _ => { err := some (RevErr.infoErrors curl es) }

/-- `revisions` over the zipped `(curls, infos)` produced by a successful
`Info` call (`Info` returns exactly one record per requested identity). -/
def revisions : List (CURL × InfoResponse) → List (CharmRev RevErr)
  | [] => []
  | ci :: rest => revisionOf ci.1 ci.2 :: revisions rest

/-! ## Local backend (src/charmrepo/repo.go lines 408-512) -/

/-- The data `local.Get` extracts from a successfully read charm:
`ch.Meta().Name` and `ch.Revision()` (charm decoding itself is the external
archive-reading collaborator). -/
structure LCharm where
  name : String
  revision : Int
  deriving Repr, DecidableEq

inductive ReadRes where
  /-- `charm.ReadCharm` succeeded. -/
  | ok (ch : LCharm)
  /-- `charm.ReadCharm` failed (the warning text is irrelevant). -/
  | fail
  deriving Repr, DecidableEq

/-- One entry of the series subdirectory, as `local.Get` observes it. -/
inductive DirEntry where
  /-- A non-symlink entry: `FileInfo.Name()`, `IsDir()`, and the result of
  reading it as a charm. -/
  | plain (name : String) (isDir : Bool) (read : ReadRes)
  /-- A symlink entry: `os.Stat` of its path either fails (`none`) or yields
  the target's `IsDir()`; `read` is the result of reading the path. -/
  | symlink (name : String) (stat : Option Bool) (read : ReadRes)
  deriving Repr, DecidableEq

inductive LocalErr where
  | nonLocalSchema (curl : CURL)
  | repoNotFound (path : String)
  | rootStatFailed
  | statFailed (entryName : String)
  | charmNotFound (curl : CURL) (repoPath : String)
  deriving Repr, DecidableEq

/-- `mightBeCharm` (src/charmrepo/repo.go lines 456-461). -/
def mightBeCharm (name : String) (isDir : Bool) : Bool :=
  if isDir then !(hasPre "." name)
  else ".charm".toList.isSuffixOf name.toList

/-- Symlink resolution at the top of `local.Get`'s scan loop: a symlink whose
`os.Stat` fails aborts the whole `Get` (`return nil, err`). -/
def resolveEntry (e : DirEntry) : Except LocalErr (String × Bool × ReadRes) :=
  match e with
  | DirEntry.plain n d r => Except.ok (n, d, r)
  | DirEntry.symlink n stat r =>
    match stat with
    | none => Except.error (LocalErr.statFailed n)
    | some d => Except.ok (n, d, r)

/-- The scan loop of `local.Get` (src/charmrepo/repo.go lines 485-511),
threading the `latest` fallback. -/
def scanEntries (curl : CURL) (repoPath : String) :
    List DirEntry → Option LCharm → Except LocalErr LCharm
  | [], latest =>
    if curl.revision = -1 then
      match latest with
      | some ch => Except.ok ch
      | none => Except.error (LocalErr.charmNotFound curl repoPath)
    else Except.error (LocalErr.charmNotFound curl repoPath)
  | e :: rest, latest =>
    match resolveEntry e with
    | Except.error err => Except.error err
    | Except.ok (n, d, r) =>
      if !mightBeCharm n d then scanEntries curl repoPath rest latest
      else
        match r with
        | ReadRes.fail => scanEntries curl repoPath rest latest
        | ReadRes.ok ch =>
          if ch.name ≠ curl.name then scanEntries curl repoPath rest latest
          else if ch.revision = curl.revision then Except.ok ch
          else
            match latest with
            | none => scanEntries curl repoPath rest (some ch)
            | some l =>
              if ch.revision > l.revision then
                scanEntries curl repoPath rest (some ch)
              else scanEntries curl repoPath rest (some l)

/-- `os.Stat` of the repository root. -/
inductive RootInfo where
  | missing
  | statFailed
  | file
  | directory
  deriving Repr, DecidableEq

/-- `local.Get` (src/charmrepo/repo.go lines 466-512).  `entries` is the
result of `ioutil.ReadDir` on the series subdirectory (`none` = the read
failed, reported as charm-not-found). -/
def localGet (root : RootInfo) (repoPath : String)
    (entries : Option (List DirEntry)) (curl : CURL) :
    Except LocalErr LCharm :=
  if curl.schema ≠ "local" then Except.error (LocalErr.nonLocalSchema curl)
  else
    match root with
    | RootInfo.missing => Except.error (LocalErr.repoNotFound repoPath)
    | RootInfo.statFailed => Except.error LocalErr.rootStatFailed
    | RootInfo.file => Except.error (LocalErr.repoNotFound repoPath)
    | RootInfo.directory =>
      match entries with
      | none => Except.error (LocalErr.charmNotFound curl repoPath)
      | some es => scanEntries curl repoPath es none

/-- `local.Latest` (src/charmrepo/repo.go lines 435-446), parameterized by
the backend's `Get`. -/
def localLatest (get : CURL → Except LocalErr LCharm) :
    List CURL → List (CharmRev LocalErr)
  | [] => []
  | curl :: rest =>
    (match get (curl.withRevision (-1)) with
     | Except.ok ch => { revision := ch.revision }
     | Except.error e => { err := some e }) :: localLatest get rest

/-! ## Remote backend `charmStore.Get`
(src/charmrepo/repo.go lines 335-346 and 348-406)

The filesystem is a finite map from path to content; content bytes are
modelled as `String` and the SHA256 function as an abstract parameter
`hash`.  `charm.Quote(curl.String())` (identity quoting/rendering, from the
identity model outside the provided sources) is abstracted as the parameter
`cachePath`, per spec §6: the cache file path is a deterministic function of
the fully resolved identity.  `charm.ReadCharmArchive` (the external
archive-decoding collaborator) is abstracted to returning the bytes at the
final path.  The instrumentation boolean in the result records whether the
download branch ran. -/

abbrev FS := List (String × String)

def removeKey (fs : FS) (k : String) : FS := fs.filter (fun kv => kv.1 ≠ k)

/-- Writing a whole file at a path (both `TempFile`+`Copy` and the atomic
`utils.ReplaceFile` rename end in this state change). -/
def insertFile (fs : FS) (k v : String) : FS := (k, v) :: removeKey fs k

inductive GetErr where
  /-- `s.revisions(curl)` itself failed. -/
  | revisionsFailed (msg : String)
  /-- `len(revInfo) != 1`. -/
  | expectedOne (n : Nat)
  /-- `revInfo[0].Err != nil`. -/
  | itemFailed (e : RevErr)
  /-- "store returned charm with wrong revision %d for %q". -/
  | wrongRevision (rev : Int) (curl : CURL)
  /-- The HTTP fetch of the artifact body failed. -/
  | fetchFailed
  /-- `utils.ReadFileSHA256` failed (no file at the path). -/
  | fileMissing (path : String)
  /-- "bad SHA256 of %q". -/
  | badDigest (path : String)
  deriving Repr, DecidableEq

/-- `verify` (src/charmrepo/repo.go lines 337-346): `none` means success. -/
def verifyFile (hash : String → String) (fs : FS) (path digest : String) :
    Option GetErr :=
  match lookup fs path with
  | none => some (GetErr.fileMissing path)
  | some content =>
    if hash content = digest then none else some (GetErr.badDigest path)

/-- The tail of `charmStore.Get` after the final path is known: re-verify the
digest at the final path, then read the archive there. -/
def finishGet (hash : String → String) (path digest : String) (fs : FS)
    (downloaded : Bool) : Except GetErr (FS × String × Bool) :=
  match verifyFile hash fs path digest with
  | some e => Except.error e
  | none =>
    match lookup fs path with
    | some c => Except.ok (fs, c, downloaded)
    | none => Except.error (GetErr.fileMissing path)

/-- The cache section of `charmStore.Get` (lines 375-405): use the cached
file when it verifies; otherwise download the body to a temp file and
atomically rename it into place, then re-verify. -/
def getCached (hash : String → String) (path digest : String)
    (body : Option String) (tmp : String) (fs : FS) :
    Except GetErr (FS × String × Bool) :=
  match verifyFile hash fs path digest with
  | none => finishGet hash path digest fs false
  | some _ =>
    match body with
    | none => Except.error GetErr.fetchFailed
    | some c =>
      let fs1 := insertFile fs tmp c
      let fs2 := insertFile (removeKey fs1 tmp) path c
      finishGet hash path digest fs2 true

/-- `charmStore.Get` (src/charmrepo/repo.go lines 350-406), parameterized by
the outcome `revResult` of `s.revisions(curl)` and the artifact `body` the
store would serve (`none` = network failure).  The outer `Option` is `none`
when `CacheDir` is unset, which the Go code turns into a panic. -/
def charmStoreGet (hash : String → String) (cachePath : CURL → String)
    (cacheDirSet : Bool) (revResult : Except String (List (CharmRev RevErr)))
    (body : Option String) (tmp : String) (fs : FS) (curl : CURL) :
    Option (Except GetErr (FS × String × Bool)) :=
  if !cacheDirSet then none
  else
    some
      (match revResult with
       | Except.error msg => Except.error (GetErr.revisionsFailed msg)
       | Except.ok revInfo =>
         match revInfo with
         | [ri] =>
           match ri.err with
           | some e => Except.error (GetErr.itemFailed e)
           | none =>
             let rev := ri.revision
             let digest := ri.sha256
             if curl.revision = -1 then
               getCached hash (cachePath (curl.withRevision rev)) digest
                 body tmp fs
             else if curl.revision ≠ rev then
               Except.error (GetErr.wrongRevision rev curl)
             else getCached hash (cachePath curl) digest body tmp fs
         | other => Except.error (GetErr.expectedOne other.length))

/-! ## Derived notions used to state the claims -/

/-- The parsed service-name slot of one relation endpoint, as
`verifyRelations` uses it: the empty string when parsing fails. -/
def svcOf (svcRel : String) : String :=
  match parseRelation svcRel with
  | some sr => sr.1
  | none => ""

/-- The errors one placement token contributes, independent of the verifier
state (the error part of `verifyPlacementStep` touches neither previous
errors nor the reference counts). -/
def tokenErrs (bd : BundleData) (p : String) : List VerifyError :=
  (verifyPlacementStep bd ([], []) p).1

/-- The reference-count effect of one placement token. -/
def tokenRC (bd : BundleData) (p : String) (rc : RefCounts) : RefCounts :=
  match parsePlacement p with
  | none => rc
  | some up =>
    if up.service ≠ "" then rc
    else if up.machine = "new" then rc
    else
      match lookup bd.machines up.machine with
      | none => rc
      | some _ => incr rc up.machine

/-- Whether one placement token is a valid machine-targeted placement
referencing the declared machine `id` (the exact condition under which
`verifyPlacement` increments `machineRefCounts[id]`). -/
def tokenRefs (bd : BundleData) (id : String) (p : String) : Bool :=
  match parsePlacement p with
  | none => false
  | some up =>
    up.service = "" && up.machine ≠ "new" &&
      (lookup bd.machines up.machine).isSome && up.machine = id

/-- Whether any placement directive across all services references the
declared machine `id`. -/
def referencedB (bd : BundleData) (id : String) : Bool :=
  bd.services.any (fun e => e.2.«to».any (tokenRefs bd id))

/-- The per-service errors added before the placement walk. -/
def svcHeadErrs (charmOk vc : String → Bool) (name : String)
    (svc : ServiceSpec) : List VerifyError :=
  (if svc.numUnits < 0 then [VerifyError.negativeUnits name] else []) ++
  (if charmOk svc.charm then [] else [VerifyError.invalidCharmURL name]) ++
  (if vc svc.constraints then []
   else [VerifyError.invalidServiceConstraints name]) ++
  (if (svc.«to».length : Int) > svc.numUnits then
    [VerifyError.tooManyUnits name] else [])

/-- What `local.Get`'s scan extracts from one directory entry when the entry
survives symlink resolution, the `mightBeCharm` filter, the charm read, and
the name comparison: the candidate charm, if any. -/
def entryCandidate (curl : CURL) (e : DirEntry) : Option LCharm :=
  match resolveEntry e with
  | Except.error _ => none
  | Except.ok (n, d, r) =>
    if !mightBeCharm n d then none
    else
      match r with
      | ReadRes.fail => none
      | ReadRes.ok ch => if ch.name = curl.name then some ch else none

/-- All candidates a directory listing offers for `curl`, in listing order. -/
def candidates (curl : CURL) (es : List DirEntry) : List LCharm :=
  es.filterMap (entryCandidate curl)

/-- How the scan loop's `latest` fallback absorbs one further candidate. -/
def pick (latest : Option LCharm) (ch : LCharm) : LCharm :=
  match latest with
  | none => ch
  | some l => if ch.revision > l.revision then ch else l

/-- A directory listing containing no symlink whose target cannot be
stat'ed (such an entry makes `local.Get` abort). -/
def noBroken (es : List DirEntry) : Prop :=
  ∀ n r, DirEntry.symlink n none r ∉ es

/-! ## Helper lemmas -/

theorem relElemLoop_mono {bd : BundleData} {rp : List String}
    {elems : List String} {i : Nat} {errs : List VerifyError}
    {pair : String × String} {errs2 : List VerifyError}
    {pr : String × String} {x : VerifyError}
    (h : relElemLoop bd rp elems i errs pair = some (errs2, pr))
    (hx : x ∈ errs) : x ∈ errs2 := by
  induction elems generalizing i errs pair with
  | nil =>
    simp only [relElemLoop] at h
    cases h
    exact hx
  | cons e rest ih =>
    simp only [relElemLoop] at h
    match i, h with
    | 0, h => exact ih h (by simp [hx])
    | 1, h => exact ih h (by simp [hx])

theorem relLoop_mono {bd : BundleData} {l : List (List String)} {i : Nat}
    {errs out : List VerifyError} {x : VerifyError}
    (h : relLoop bd l i errs = some out) (hx : x ∈ errs) : x ∈ out := by
  induction l generalizing i errs with
  | nil =>
    simp only [relLoop] at h
    cases h
    exact hx
  | cons rp rest ih =>
    simp only [relLoop] at h
    cases hrel : relElemLoop bd rp rp 0
        (errs ++ if rp.length ≠ 2 then
          [VerifyError.relationCount i rp.length] else []) ("", "") with
    | none => rw [hrel] at h; cases h
    | some res =>
      rw [hrel] at h
      exact ih h (by
        simp only [List.mem_append]
        exact Or.inl (relElemLoop_mono hrel (by simp [hx])))

theorem relElemLoop_two (bd : BundleData) (rp : List String) (a b : String)
    (errs : List VerifyError) :
    ∃ errs2, relElemLoop bd rp [a, b] 0 errs ("", "") =
      some (errs2, (svcOf a, svcOf b)) := by
  exact ⟨_, rfl⟩

theorem relLoop_self_relation {bd : BundleData} {a b : String}
    {l : List (List String)} {i : Nat} {errs out : List VerifyError}
    (hmem : [a, b] ∈ l) (heq : svcOf a = svcOf b)
    (h : relLoop bd l i errs = some out) :
    VerifyError.selfRelation [a, b] ∈ out := by
  induction l generalizing i errs with
  | nil => cases hmem
  | cons rp rest ih =>
    rcases List.mem_cons.mp hmem with hhead | htail
    · subst hhead
      simp only [relLoop] at h
      obtain ⟨errs2, h2⟩ := relElemLoop_two bd [a, b] a b
        (errs ++ if ([a, b] : List String).length ≠ 2 then
          [VerifyError.relationCount i ([a, b] : List String).length] else [])
      rw [h2] at h
      refine relLoop_mono h ?_
      rw [heq]
      simp
    · simp only [relLoop] at h
      cases hrel : relElemLoop bd rp rp 0
          (errs ++ if rp.length ≠ 2 then
            [VerifyError.relationCount i rp.length] else []) ("", "") with
      | none => rw [hrel] at h; cases h
      | some res => rw [hrel] at h; exact ih htail h

theorem verifyPlacementStep_fst (bd : BundleData) (st : VState) (p : String) :
    (verifyPlacementStep bd st p).1 = st.1 ++ tokenErrs bd p := by
  simp only [tokenErrs, verifyPlacementStep]
  cases parsePlacement p with
  | none => simp
  | some up =>
    by_cases hs : up.service ≠ ""
    · simp only [if_pos hs]
      cases lookup bd.services up.service with
      | none => simp
      | some spec =>
        simp only []
        split <;> simp
    · simp only [if_neg hs]
      by_cases hm : up.machine = "new"
      · simp [hm]
      · simp only [if_neg hm]
        cases lookup bd.machines up.machine with
        | none => simp
        | some m => simp

theorem verifyPlacementStep_snd (bd : BundleData) (st : VState) (p : String) :
    (verifyPlacementStep bd st p).2 = tokenRC bd p st.2 := by
  simp only [tokenRC, verifyPlacementStep]
  cases parsePlacement p with
  | none => rfl
  | some up =>
    by_cases hs : up.service ≠ ""
    · simp only [if_pos hs]
      cases lookup bd.services up.service with
      | none => simp
      | some spec =>
        simp only []
        split <;> simp
    · simp only [if_neg hs]
      by_cases hm : up.machine = "new"
      · simp [hm]
      · simp only [if_neg hm]
        cases lookup bd.machines up.machine with
        | none => simp
        | some m => simp

theorem verifyPlacement_fst (bd : BundleData) (ts : List String) (st : VState) :
    (verifyPlacement bd ts st).1 = st.1 ++ ts.flatMap (tokenErrs bd) := by
  induction ts generalizing st with
  | nil => simp [verifyPlacement]
  | cons p rest ih =>
    simp only [verifyPlacement, List.foldl_cons] at *
    rw [ih, verifyPlacementStep_fst]
    simp

theorem verifyPlacement_snd (bd : BundleData) (ts : List String) (st : VState) :
    (verifyPlacement bd ts st).2 =
      ts.foldl (fun rc p => tokenRC bd p rc) st.2 := by
  induction ts generalizing st with
  | nil => simp [verifyPlacement]
  | cons p rest ih =>
    simp only [verifyPlacement, List.foldl_cons] at *
    rw [ih, verifyPlacementStep_snd]

theorem verifyServiceStep_fst (bd : BundleData) (charmOk vc : String → Bool)
    (st : VState) (e : String × ServiceSpec) :
    (verifyServiceStep bd charmOk vc st e).1 =
      st.1 ++ (svcHeadErrs charmOk vc e.1 e.2 ++
        e.2.«to».flatMap (tokenErrs bd)) := by
  simp only [verifyServiceStep, svcHeadErrs]
  rw [verifyPlacement_fst]
  simp

theorem verifyServiceStep_snd (bd : BundleData) (charmOk vc : String → Bool)
    (st : VState) (e : String × ServiceSpec) :
    (verifyServiceStep bd charmOk vc st e).2 =
      e.2.«to».foldl (fun rc p => tokenRC bd p rc) st.2 := by
  simp only [verifyServiceStep]
  rw [verifyPlacement_snd]

theorem verifyServices_fst (bd : BundleData) (charmOk vc : String → Bool)
    (st : VState) :
    (verifyServices bd charmOk vc st).1 =
      st.1 ++ bd.services.flatMap
        (fun e => svcHeadErrs charmOk vc e.1 e.2 ++
          e.2.«to».flatMap (tokenErrs bd)) := by
  simp only [verifyServices]
  generalize bd.services = l
  induction l generalizing st with
  | nil => simp
  | cons e rest ih =>
    simp only [List.foldl_cons]
    rw [ih]
    rw [verifyServiceStep_fst]
    simp

theorem verifyMachines_acc (bd : BundleData) (vc : String → Bool)
    (errs : List VerifyError) :
    verifyMachines bd vc errs = errs ++ verifyMachines bd vc [] := by
  simp only [verifyMachines]
  generalize bd.machines = l
  induction l generalizing errs with
  | nil => simp
  | cons kv rest ih =>
    simp only [List.foldl_cons]
    rw [ih ((errs ++ _) ++ _), ih ((([] : List VerifyError) ++ _) ++ _)]
    simp

theorem lookup_incr (rc : RefCounts) (k id : String) :
    lookup (incr rc k) id =
      (lookup rc id).map (fun n => if k = id then n + 1 else n) := by
  induction rc with
  | nil => rfl
  | cons kv rest ih =>
    simp only [incr, List.map_cons, lookup] at *
    by_cases h1 : kv.1 = k
    · by_cases hk : k = id
      · simp [h1, hk, h1.trans hk]
      · have h2 : ¬kv.1 = id := fun hh => hk (h1.symm.trans hh)
        simp [h1, hk, h2, ih]
    · by_cases h2 : kv.1 = id
      · have hk : ¬k = id := fun hh => h1 (h2.trans hh.symm)
        have hik : ¬id = k := fun hh => hk hh.symm
        simp [h1, h2, hk, hik]
      · simp [h1, h2, ih]

theorem lookup_tokenRC (bd : BundleData) (p : String) (rc : RefCounts)
    (id : String) :
    lookup (tokenRC bd p rc) id =
      (lookup rc id).map (fun n => if tokenRefs bd id p then n + 1 else n) := by
  cases hp : parsePlacement p with
  | none =>
    simp only [tokenRC, tokenRefs, hp]
    cases lookup rc id <;> simp
  | some up =>
    simp only [tokenRC, tokenRefs, hp]
    by_cases hs : up.service ≠ ""
    · simp only [if_pos hs]
      cases lookup rc id <;> simp [hs]
    · simp only [if_neg hs]
      push_neg at hs
      by_cases hm : up.machine = "new"
      · simp only [if_pos hm]
        cases lookup rc id <;> simp [hm]
      · simp only [if_neg hm]
        cases hl : lookup bd.machines up.machine with
        | none => cases lookup rc id <;> simp [hl]
        | some m =>
          rw [lookup_incr]
          cases lookup rc id <;> simp [hs, hm, hl]

theorem lookup_foldTok (bd : BundleData) (id : String) (ts : List String)
    (rc : RefCounts) :
    lookup (ts.foldl (fun rc p => tokenRC bd p rc) rc) id =
      (lookup rc id).map (fun n => n + ts.countP (tokenRefs bd id)) := by
  induction ts generalizing rc with
  | nil => cases h : lookup rc id <;> simp [h]
  | cons p rest ih =>
    simp only [List.foldl_cons]
    rw [ih, lookup_tokenRC]
    cases lookup rc id with
    | none => simp
    | some n =>
      simp only [Option.map_some, List.countP_cons]
      by_cases h : tokenRefs bd id p <;> simp [h] <;> omega

theorem lookup_verifyServices_snd (bd : BundleData)
    (charmOk vc : String → Bool) (st : VState) (id : String) :
    lookup ((verifyServices bd charmOk vc st).2) id =
      (lookup st.2 id).map
        (fun n => n + (bd.services.map
          (fun e => e.2.«to».countP (tokenRefs bd id))).sum) := by
  simp only [verifyServices]
  generalize bd.services = l
  induction l generalizing st with
  | nil => cases h : lookup st.2 id <;> simp [h]
  | cons e rest ih =>
    simp only [List.foldl_cons, List.map_cons, List.sum_cons]
    rw [ih, verifyServiceStep_snd, lookup_foldTok]
    cases lookup st.2 id with
    | none => simp
    | some n => simp; omega

theorem lookup_initCounts (bd : BundleData) (id : String) :
    lookup (initCounts bd) id = (lookup bd.machines id).map (fun _ => 0) := by
  simp only [initCounts]
  induction bd.machines with
  | nil => rfl
  | cons kv rest ih =>
    simp only [List.map_cons, lookup]
    by_cases h : kv.1 = id <;> simp [h, ih]

theorem fst_incr (rc : RefCounts) (k : String) :
    (incr rc k).map Prod.fst = rc.map Prod.fst := by
  induction rc with
  | nil => rfl
  | cons kv rest ih =>
    simp only [incr, List.map_cons] at *
    by_cases h : kv.1 = k <;> simp [h, ih]

theorem fst_tokenRC (bd : BundleData) (p : String) (rc : RefCounts) :
    (tokenRC bd p rc).map Prod.fst = rc.map Prod.fst := by
  cases hp : parsePlacement p with
  | none => simp [tokenRC, hp]
  | some up =>
    simp only [tokenRC, hp]
    by_cases hs : up.service ≠ ""
    · simp [hs]
    · simp only [if_neg hs]
      by_cases hm : up.machine = "new"
      · simp [hm]
      · simp only [if_neg hm]
        cases lookup bd.machines up.machine with
        | none => simp
        | some m => simp [fst_incr]

theorem fst_foldTok (bd : BundleData) (ts : List String) (rc : RefCounts) :
    (ts.foldl (fun rc p => tokenRC bd p rc) rc).map Prod.fst =
      rc.map Prod.fst := by
  induction ts generalizing rc with
  | nil => rfl
  | cons p rest ih =>
    simp only [List.foldl_cons]
    rw [ih, fst_tokenRC]

theorem fst_verifyServices_snd (bd : BundleData) (charmOk vc : String → Bool)
    (st : VState) :
    ((verifyServices bd charmOk vc st).2).map Prod.fst =
      st.2.map Prod.fst := by
  simp only [verifyServices]
  generalize bd.services = l
  induction l generalizing st with
  | nil => rfl
  | cons e rest ih =>
    simp only [List.foldl_cons]
    rw [ih, verifyServiceStep_snd, fst_foldTok]

theorem fst_initCounts (bd : BundleData) :
    (initCounts bd).map Prod.fst = bd.machines.map Prod.fst := by
  simp [initCounts, List.map_map]

theorem orphan_fold (rc : RefCounts) (acc : List VerifyError) :
    rc.foldl
      (fun a kv =>
        if kv.2 = 0 then a ++ [VerifyError.machineNotReferred kv.1] else a)
      acc =
      acc ++ (rc.filter (fun kv => kv.2 = 0)).map
        (fun kv => VerifyError.machineNotReferred kv.1) := by
  induction rc generalizing acc with
  | nil => simp
  | cons kv rest ih =>
    simp only [List.foldl_cons, List.filter_cons]
    by_cases h : kv.2 = 0 <;> simp [h, ih]

theorem orphanErrors_eq (rc : RefCounts) :
    orphanErrors rc = (rc.filter (fun kv => kv.2 = 0)).map
      (fun kv => VerifyError.machineNotReferred kv.1) := by
  simpa using orphan_fold rc []

theorem count_mnr_filter_zero (rc : RefCounts) (id : String)
    (h : id ∉ rc.map Prod.fst) :
    ((rc.filter (fun kv => kv.2 = 0)).map
      (fun kv => VerifyError.machineNotReferred kv.1)).count
        (VerifyError.machineNotReferred id) = 0 := by
  induction rc with
  | nil => rfl
  | cons kv rest ih =>
    simp only [List.map_cons, List.mem_cons, not_or] at h
    have hne : ¬(VerifyError.machineNotReferred kv.1 =
        VerifyError.machineNotReferred id) := by
      simp only [VerifyError.machineNotReferred.injEq]
      exact fun hh => h.1 hh.symm
    by_cases h2 : kv.2 = 0
    · simp [List.filter_cons, h2, List.count_cons, ih h.2, hne]
    · simp [List.filter_cons, h2, ih h.2]

theorem count_orphans (rc : RefCounts) (id : String) (n : Nat)
    (hnd : (rc.map Prod.fst).Nodup) (hl : lookup rc id = some n) :
    (orphanErrors rc).count (VerifyError.machineNotReferred id) =
      if n = 0 then 1 else 0 := by
  rw [orphanErrors_eq]
  induction rc with
  | nil => cases hl
  | cons kv rest ih =>
    simp only [lookup] at hl
    simp only [List.map_cons, List.nodup_cons] at hnd
    by_cases h1 : kv.1 = id
    · rw [if_pos h1] at hl
      have hn : kv.2 = n := by cases hl; rfl
      have hrest : id ∉ rest.map Prod.fst := h1 ▸ hnd.1
      by_cases h2 : kv.2 = 0
      · have hn0 : n = 0 := hn ▸ h2
        simp [List.filter_cons, h2, List.count_cons,
          count_mnr_filter_zero rest id hrest, h1, hn0]
      · have hn0 : ¬n = 0 := hn ▸ h2
        simp [List.filter_cons, h2,
          count_mnr_filter_zero rest id hrest, hn0]
    · rw [if_neg h1] at hl
      have hne : ¬(VerifyError.machineNotReferred kv.1 =
          VerifyError.machineNotReferred id) := by
        simp only [VerifyError.machineNotReferred.injEq]
        exact h1
      by_cases h2 : kv.2 = 0
      · simp [List.filter_cons, h2, List.count_cons, ih hnd.2 hl, hne]
      · simp [List.filter_cons, h2, ih hnd.2 hl]

theorem count_mnr_tokenErrs (bd : BundleData) (p : String) (id : String) :
    (tokenErrs bd p).count (VerifyError.machineNotReferred id) = 0 := by
  simp only [tokenErrs, verifyPlacementStep]
  cases parsePlacement p with
  | none => simp
  | some up =>
    by_cases hs : up.service ≠ ""
    · simp only [if_pos hs]
      cases lookup bd.services up.service with
      | none => simp
      | some spec =>
        simp only []
        split <;> simp
    · simp only [if_neg hs]
      by_cases hm : up.machine = "new"
      · simp [hm]
      · simp only [if_neg hm]
        cases lookup bd.machines up.machine with
        | none => simp
        | some m => simp

theorem count_mnr_svcHead (charmOk vc : String → Bool) (name : String)
    (svc : ServiceSpec) (id : String) :
    (svcHeadErrs charmOk vc name svc).count
      (VerifyError.machineNotReferred id) = 0 := by
  simp only [svcHeadErrs, List.count_append]
  split_ifs <;> simp

theorem count_mnr_services (bd : BundleData) (charmOk vc : String → Bool)
    (id : String) :
    (bd.services.flatMap
      (fun e => svcHeadErrs charmOk vc e.1 e.2 ++
        e.2.«to».flatMap (tokenErrs bd))).count
      (VerifyError.machineNotReferred id) = 0 := by
  induction bd.services with
  | nil => rfl
  | cons e rest ih =>
    simp only [List.flatMap_cons, List.count_append, ih,
      count_mnr_svcHead]
    have : (e.2.«to».flatMap (tokenErrs bd)).count
        (VerifyError.machineNotReferred id) = 0 := by
      induction e.2.«to» with
      | nil => rfl
      | cons p ps ihp =>
        simp only [List.flatMap_cons, List.count_append, ihp,
          count_mnr_tokenErrs]
    simp [this]

theorem count_mnr_relElemLoop {bd : BundleData} {rp : List String}
    {elems : List String} {i : Nat} {errs : List VerifyError}
    {pair : String × String} {errs2 : List VerifyError}
    {pr : String × String} {id : String}
    (h : relElemLoop bd rp elems i errs pair = some (errs2, pr)) :
    errs2.count (VerifyError.machineNotReferred id) =
      errs.count (VerifyError.machineNotReferred id) := by
  induction elems generalizing i errs pair with
  | nil =>
    simp only [relElemLoop] at h
    cases h
    rfl
  | cons e rest ih =>
    simp only [relElemLoop] at h
    match i, h with
    | 0, h =>
      rw [ih h]
      simp only [List.count_append]
      cases parseRelation e <;> cases lookup bd.services _ <;> simp
    | 1, h =>
      rw [ih h]
      simp only [List.count_append]
      cases parseRelation e <;> cases lookup bd.services _ <;> simp

theorem count_mnr_relLoop {bd : BundleData} {l : List (List String)} {i : Nat}
    {errs out : List VerifyError} {id : String}
    (h : relLoop bd l i errs = some out) :
    out.count (VerifyError.machineNotReferred id) =
      errs.count (VerifyError.machineNotReferred id) := by
  induction l generalizing i errs with
  | nil =>
    simp only [relLoop] at h
    cases h
    rfl
  | cons rp rest ih =>
    simp only [relLoop] at h
    cases hrel : relElemLoop bd rp rp 0
        (errs ++ if rp.length ≠ 2 then
          [VerifyError.relationCount i rp.length] else []) ("", "") with
    | none => rw [hrel] at h; cases h
    | some res =>
      rw [hrel] at h
      rw [ih h]
      simp only [List.count_append]
      rw [count_mnr_relElemLoop hrel]
      simp only [List.count_append]
      split <;> simp <;> split <;> simp

theorem count_mnr_verifyMachines (bd : BundleData) (vc : String → Bool)
    (errs : List VerifyError) (id : String) :
    (verifyMachines bd vc errs).count (VerifyError.machineNotReferred id) =
      errs.count (VerifyError.machineNotReferred id) := by
  simp only [verifyMachines]
  induction bd.machines generalizing errs with
  | nil => rfl
  | cons kv rest ih =>
    simp only [List.foldl_cons]
    rw [ih]
    simp only [List.count_append]
    split <;> simp <;> split <;> simp

theorem natSum_zero_of_all {l : List Nat} (h : ∀ x ∈ l, x = 0) :
    l.sum = 0 := by
  induction l with
  | nil => rfl
  | cons a rest ih =>
    simp only [List.sum_cons]
    rw [h a (List.mem_cons_self a rest), ih (fun x hx => h x (List.mem_cons_of_mem a hx))]

theorem natSum_all_zero {l : List Nat} (h : l.sum = 0) {x : Nat}
    (hx : x ∈ l) : x = 0 := by
  induction l with
  | nil => cases hx
  | cons a rest ih =>
    simp only [List.sum_cons] at h
    rcases List.mem_cons.mp hx with rfl | hm
    · omega
    · exact ih (by omega) hm

theorem referencedB_eq_false_iff (bd : BundleData) (id : String) :
    referencedB bd id = false ↔
      (bd.services.map
        (fun e => e.2.«to».countP (tokenRefs bd id))).sum = 0 := by
  simp only [referencedB, List.any_eq_false]
  constructor
  · intro h
    apply natSum_zero_of_all
    intro x hx
    rcases List.mem_map.mp hx with ⟨e, he, rfl⟩
    rw [List.countP_eq_zero]
    intro p hp ht
    exact h e he (List.any_eq_true.mpr ⟨p, hp, ht⟩)
  · intro h e he hany
    rcases List.any_eq_true.mp hany with ⟨p, hp, ht⟩
    have hcount : e.2.«to».countP (tokenRefs bd id) = 0 := by
      have hmem : e.2.«to».countP (tokenRefs bd id) ∈
          bd.services.map (fun e => e.2.«to».countP (tokenRefs bd id)) :=
        List.mem_map.mpr ⟨e, he, rfl⟩
      exact natSum_all_zero h hmem
    rw [List.countP_eq_zero] at hcount
    exact hcount p hp ht

/-- Claim C7.  `Verify` reports exactly one "not referred to" violation for
each machine declared in `Machines` that is referenced by zero valid
machine-targeted placement directives across all services (and none for a
referenced machine); in particular the bundle declaring one machine "1" with
no services, placements or relations fails with exactly that one violation
and no others. -/
theorem verify_orphan_machine_reported :
    (∀ (bd : BundleData) (charmOk vc : String → Bool)
       (errs : List VerifyError) (id : String),
       verify bd charmOk vc = some errs →
       (bd.machines.map Prod.fst).Nodup →
       lookup bd.machines id ≠ none →
       errs.count (VerifyError.machineNotReferred id) =
         (if referencedB bd id then 0 else 1))
    ∧ verify
        { services := [], machines := [("1", ⟨""⟩)], series := "",
          relations := [] } (fun _ => true) (fun _ => true) =
        some [VerifyError.machineNotReferred "1"] := by
  constructor
  · intro bd charmOk vc errs id h hnd hdecl
    simp only [verify] at h
    cases hr : verifyRelations bd with
    | none => rw [hr] at h; cases h
    | some relErrs =>
      rw [hr] at h
      cases h
      simp only [verifyRelations] at hr
      rw [List.count_append, count_mnr_verifyMachines]
      have h1 : ((verifyServices bd charmOk vc
          (relErrs, initCounts bd)).1).count
          (VerifyError.machineNotReferred id) = 0 := by
        rw [verifyServices_fst]
        simp only [List.count_append]
        rw [count_mnr_relLoop hr]
        simp [count_mnr_services]
      rw [h1]
      obtain ⟨m, hm⟩ : ∃ m, lookup bd.machines id = some m := by
        cases hmach : lookup bd.machines id with
        | none => exact absurd hmach hdecl
        | some m => exact ⟨m, rfl⟩
      have hlook : lookup ((verifyServices bd charmOk vc
          (relErrs, initCounts bd)).2) id =
          some ((bd.services.map
            (fun e => e.2.«to».countP (tokenRefs bd id))).sum) := by
        rw [lookup_verifyServices_snd]
        simp only []
        rw [lookup_initCounts, hm]
        simp
      have hnd2 : ((((verifyServices bd charmOk vc
          (relErrs, initCounts bd)).2)).map Prod.fst).Nodup := by
        rw [fst_verifyServices_snd]
        simpa [fst_initCounts] using hnd
      rw [count_orphans _ _ _ hnd2 hlook]
      by_cases hrefB : referencedB bd id
      · have hne : ¬((bd.services.map
            (fun e => e.2.«to».countP (tokenRefs bd id))).sum = 0) := by
          intro h0
          rw [← referencedB_eq_false_iff] at h0
          rw [hrefB] at h0
          cases h0
        simp [hrefB, hne]
      · have hz : (bd.services.map
            (fun e => e.2.«to».countP (tokenRefs bd id))).sum = 0 := by
          rw [← referencedB_eq_false_iff]
          exact Bool.not_eq_true _ ▸ hrefB
        simp [hrefB, hz]
  · decide

theorem verify_orphan_machine_reported_witness :
    ([VerifyError.machineNotReferred "1"] : List VerifyError).count
        (VerifyError.machineNotReferred "1") =
      (if referencedB
          { services := [], machines := [("1", ⟨""⟩)], series := "",
            relations := [] } "1" then 0 else 1) :=
  verify_orphan_machine_reported.1
    { services := [], machines := [("1", ⟨""⟩)], series := "",
      relations := [] } (fun _ => true) (fun _ => true)
    [VerifyError.machineNotReferred "1"] "1" (by decide) (by decide)
    (by decide)

/-- Claim C10.  For a two-element relation pair whose endpoints yield the
same parsed service name — in particular when both fail to parse, leaving
both slots holding the empty name — `Verify` additionally reports the pair
as relating a service to itself, because the self-relation check compares
the `svcPair` slots regardless of parse failure. -/
theorem verify_self_relation_on_equal_parse (bd : BundleData)
    (charmOk vc : String → Bool) (errs : List VerifyError) (a b : String)
    (hmem : [a, b] ∈ bd.relations) (heq : svcOf a = svcOf b)
    (h : verify bd charmOk vc = some errs) :
    VerifyError.selfRelation [a, b] ∈ errs := by
  simp only [verify] at h
  cases hr : verifyRelations bd with
  | none => rw [hr] at h; cases h
  | some relErrs =>
    rw [hr] at h
    have hself : VerifyError.selfRelation [a, b] ∈ relErrs :=
      relLoop_self_relation hmem heq hr
    cases h
    rw [verifyMachines_acc]
    have hst := verifyServices_fst bd charmOk vc (relErrs, initCounts bd)
    simp only [List.mem_append]
    left
    left
    rw [hst]
    exact List.mem_append.mpr (Or.inl hself)

theorem verify_self_relation_on_equal_parse_witness :
    VerifyError.selfRelation ["bad", "worse"] ∈
      [VerifyError.invalidRelationSyntax "bad",
       VerifyError.serviceNotDefined "" ["bad", "worse"],
       VerifyError.invalidRelationSyntax "worse",
       VerifyError.serviceNotDefined "" ["bad", "worse"],
       VerifyError.selfRelation ["bad", "worse"]] :=
  verify_self_relation_on_equal_parse
    { services := [], machines := [], series := "",
      relations := [["bad", "worse"]] }
    (fun _ => true) (fun _ => true) _ "bad" "worse" (by decide) (by decide)
    (by decide)

theorem scan_broken (curl : CURL) (rp : String) (n : String) (r : ReadRes)
    (rest : List DirEntry) (latest : Option LCharm) :
    scanEntries curl rp (DirEntry.symlink n none r :: rest) latest =
      Except.error (LocalErr.statFailed n) := rfl

theorem scan_skip {curl : CURL} (rp : String) {e : DirEntry}
    (rest : List DirEntry) (latest : Option LCharm)
    (h1 : entryCandidate curl e = none)
    (h2 : ∀ n r, e ≠ DirEntry.symlink n none r) :
    scanEntries curl rp (e :: rest) latest =
      scanEntries curl rp rest latest := by
  cases e with
  | plain n d r =>
    simp only [entryCandidate, resolveEntry] at h1
    simp only [scanEntries, resolveEntry]
    by_cases hmc : mightBeCharm n d
    · simp only [hmc, Bool.not_true, if_neg (by simp : ¬(false = true))] at *
      cases r with
      | fail => rfl
      | ok ch =>
        simp only [] at h1
        by_cases hn : ch.name = curl.name
        · simp [hn] at h1
        · simp [hn]
    · simp [hmc]
  | symlink n stat r =>
    cases stat with
    | none => exact absurd rfl (h2 n r)
    | some d =>
      simp only [entryCandidate, resolveEntry] at h1
      simp only [scanEntries, resolveEntry]
      by_cases hmc : mightBeCharm n d
      · simp only [hmc, Bool.not_true, if_neg (by simp : ¬(false = true))] at *
        cases r with
        | fail => rfl
        | ok ch =>
          simp only [] at h1
          by_cases hn : ch.name = curl.name
          · simp [hn] at h1
          · simp [hn]
      · simp [hmc]

theorem scan_cand {curl : CURL} (rp : String) {e : DirEntry} {ch : LCharm}
    (rest : List DirEntry) (latest : Option LCharm)
    (h : entryCandidate curl e = some ch) :
    scanEntries curl rp (e :: rest) latest =
      if ch.revision = curl.revision then Except.ok ch
      else scanEntries curl rp rest (some (pick latest ch)) := by
  have main : ∀ (n : String) (d : Bool) (r : ReadRes),
      (resolveEntry e = Except.ok (n, d, r)) →
      (if !mightBeCharm n d then scanEntries curl rp rest latest
       else
        match r with
        | ReadRes.fail => scanEntries curl rp rest latest
        | ReadRes.ok c =>
          if c.name ≠ curl.name then scanEntries curl rp rest latest
          else if c.revision = curl.revision then Except.ok c
          else
            match latest with
            | none => scanEntries curl rp rest (some c)
            | some l =>
              if c.revision > l.revision then
                scanEntries curl rp rest (some c)
              else scanEntries curl rp rest (some l)) =
      (if ch.revision = curl.revision then Except.ok ch
       else scanEntries curl rp rest (some (pick latest ch))) := by
    intro n d r hres
    simp only [entryCandidate, hres] at h
    by_cases hmc : mightBeCharm n d
    · simp only [hmc, Bool.not_true, if_neg (by simp : ¬(false = true))] at *
      cases r with
      | fail => cases h
      | ok c =>
        simp only [] at h
        by_cases hn : c.name = curl.name
        · rw [if_pos hn] at h
          cases h
          simp only [hn, ne_eq, not_true_eq_false, if_neg (by simp : ¬False)]
          by_cases hrev : ch.revision = curl.revision
          · simp [hrev]
          · simp only [if_neg hrev, pick]
            cases latest with
            | none => rfl
            | some l =>
              simp only []
              split <;> rfl
        · simp [hn] at h
    · simp [hmc] at h
  cases e with
  | plain n d r =>
    simpa only [scanEntries, resolveEntry] using main n d r rfl
  | symlink n stat r =>
    cases stat with
    | none => simp [entryCandidate, resolveEntry] at h
    | some d =>
      simpa only [scanEntries, resolveEntry] using main n d r rfl

theorem candidates_cons_none {curl : CURL} {e : DirEntry}
    (es : List DirEntry) (h : entryCandidate curl e = none) :
    candidates curl (e :: es) = candidates curl es := by
  simp [candidates, List.filterMap_cons, h]

theorem candidates_cons_some {curl : CURL} {e : DirEntry} {c : LCharm}
    (es : List DirEntry) (h : entryCandidate curl e = some c) :
    candidates curl (e :: es) = c :: candidates curl es := by
  simp [candidates, List.filterMap_cons, h]

theorem noBroken_tail {e : DirEntry} {es : List DirEntry}
    (h : noBroken (e :: es)) : noBroken es :=
  fun n r hm => h n r (List.mem_cons_of_mem _ hm)

theorem noBroken_head {e : DirEntry} {es : List DirEntry}
    (h : noBroken (e :: es)) : ∀ n r, e ≠ DirEntry.symlink n none r :=
  fun n r he => h n r (by rw [he]; exact List.mem_cons_self _ _)

theorem scan_find_exact {curl : CURL} (rp : String) {es : List DirEntry}
    {ch : LCharm} (hnb : noBroken es)
    (hf : (candidates curl es).find?
      (fun c => c.revision == curl.revision) = some ch) :
    ∀ latest, scanEntries curl rp es latest = Except.ok ch := by
  induction es with
  | nil => cases hf
  | cons e rest ih =>
    intro latest
    cases hc : entryCandidate curl e with
    | none =>
      rw [scan_skip rp rest latest hc (noBroken_head hnb)]
      rw [candidates_cons_none rest hc] at hf
      exact ih (noBroken_tail hnb) hf latest
    | some c =>
      rw [scan_cand rp rest latest hc]
      rw [candidates_cons_some rest hc, List.find?_cons] at hf
      by_cases hrev : c.revision = curl.revision
      · rw [beq_iff_eq.mpr hrev] at hf
        simp only [] at hf
        cases hf
        rw [if_pos hrev]
      · rw [beq_eq_false_iff_ne.mpr hrev] at hf
        simp only [] at hf
        rw [if_neg hrev]
        exact ih (noBroken_tail hnb) hf _

theorem scan_explicit_nomatch {curl : CURL} (rp : String) {es : List DirEntry}
    (hnb : noBroken es) (hrev : 0 ≤ curl.revision)
    (hf : (candidates curl es).find?
      (fun c => c.revision == curl.revision) = none) :
    ∀ latest, scanEntries curl rp es latest =
      Except.error (LocalErr.charmNotFound curl rp) := by
  induction es with
  | nil =>
    intro latest
    have hne : ¬(curl.revision = -1) := by omega
    simp [scanEntries, hne]
  | cons e rest ih =>
    intro latest
    cases hc : entryCandidate curl e with
    | none =>
      rw [scan_skip rp rest latest hc (noBroken_head hnb)]
      rw [candidates_cons_none rest hc] at hf
      exact ih (noBroken_tail hnb) hf latest
    | some c =>
      rw [scan_cand rp rest latest hc]
      rw [candidates_cons_some rest hc, List.find?_cons] at hf
      by_cases hr : c.revision = curl.revision
      · rw [beq_iff_eq.mpr hr] at hf
        simp only [] at hf
        cases hf
      · rw [beq_eq_false_iff_ne.mpr hr] at hf
        simp only [] at hf
        rw [if_neg hr]
        exact ih (noBroken_tail hnb) hf _

theorem scan_max_aux {curl : CURL} (rp : String) {es : List DirEntry}
    (hnb : noBroken es) (hrev : curl.revision = -1)
    (hpos : ∀ c ∈ candidates curl es, 0 ≤ c.revision) :
    ∀ l : LCharm, 0 ≤ l.revision →
    ∃ ch, scanEntries curl rp es (some l) = Except.ok ch ∧
      (ch ∈ candidates curl es ∨ ch = l) ∧ l.revision ≤ ch.revision ∧
      ∀ c ∈ candidates curl es, c.revision ≤ ch.revision := by
  induction es with
  | nil =>
    intro l _
    refine ⟨l, by simp [scanEntries, hrev], Or.inr rfl, le_refl _, ?_⟩
    intro c hc
    cases hc
  | cons e rest ih =>
    intro l hl
    cases hc : entryCandidate curl e with
    | none =>
      rw [scan_skip rp rest (some l) hc (noBroken_head hnb)]
      rw [candidates_cons_none rest hc] at hpos ⊢
      exact ih (noBroken_tail hnb) hpos l hl
    | some c =>
      rw [scan_cand rp rest (some l) hc]
      rw [candidates_cons_some rest hc] at hpos ⊢
      have hcpos : 0 ≤ c.revision := hpos c (List.mem_cons_self _ _)
      have hne : ¬(c.revision = curl.revision) := by rw [hrev]; omega
      rw [if_neg hne]
      have hposr : ∀ x ∈ candidates curl rest, 0 ≤ x.revision :=
        fun x hx => hpos x (List.mem_cons_of_mem _ hx)
      have hm : 0 ≤ (pick (some l) c).revision := by
        simp only [pick]
        split <;> omega
      obtain ⟨ch, hsc, hmem, hge, hmax⟩ :=
        ih (noBroken_tail hnb) hposr (pick (some l) c) hm
      refine ⟨ch, hsc, ?_, ?_, ?_⟩
      · rcases hmem with hin | rfl
        · exact Or.inl (List.mem_cons_of_mem _ hin)
        · simp only [pick]
          split
          · exact Or.inl (List.mem_cons_self _ _)
          · exact Or.inr rfl
      · refine le_trans ?_ hge
        simp only [pick]
        split <;> omega
      · intro x hx
        rcases List.mem_cons.mp hx with rfl | hin
        · refine le_trans ?_ hge
          simp only [pick]
          split <;> omega
        · exact hmax x hin

theorem scan_max_none {curl : CURL} (rp : String) {es : List DirEntry}
    (hnb : noBroken es) (hrev : curl.revision = -1)
    (hpos : ∀ c ∈ candidates curl es, 0 ≤ c.revision)
    (hne : candidates curl es ≠ []) :
    ∃ ch, scanEntries curl rp es none = Except.ok ch ∧
      ch ∈ candidates curl es ∧
      ∀ c ∈ candidates curl es, c.revision ≤ ch.revision := by
  induction es with
  | nil => exact absurd rfl hne
  | cons e rest ih =>
    cases hc : entryCandidate curl e with
    | none =>
      rw [scan_skip rp rest none hc (noBroken_head hnb)]
      rw [candidates_cons_none rest hc] at hpos hne ⊢
      exact ih (noBroken_tail hnb) hpos hne
    | some c =>
      rw [scan_cand rp rest none hc]
      rw [candidates_cons_some rest hc] at hpos ⊢
      have hcpos : 0 ≤ c.revision := hpos c (List.mem_cons_self _ _)
      have hnrev : ¬(c.revision = curl.revision) := by rw [hrev]; omega
      rw [if_neg hnrev]
      have hposr : ∀ x ∈ candidates curl rest, 0 ≤ x.revision :=
        fun x hx => hpos x (List.mem_cons_of_mem _ hx)
      obtain ⟨ch, hsc, hmem, hge, hmax⟩ :=
        scan_max_aux rp (noBroken_tail hnb) hrev hposr (pick none c)
          (by simpa [pick] using hcpos)
      refine ⟨ch, by simpa [pick] using hsc, ?_, ?_⟩
      · rcases hmem with hin | rfl
        · exact List.mem_cons_of_mem _ hin
        · simpa [pick] using List.mem_cons_self c (candidates curl rest)
      · intro x hx
        rcases List.mem_cons.mp hx with rfl | hin
        · simpa [pick] using hge
        · exact hmax x hin

theorem scan_no_candidates {curl : CURL} (rp : String) {es : List DirEntry}
    (hnb : noBroken es) (hempty : candidates curl es = [])
    (hrev : curl.revision = -1) :
    scanEntries curl rp es none =
      Except.error (LocalErr.charmNotFound curl rp) := by
  induction es with
  | nil => simp [scanEntries, hrev]
  | cons e rest ih =>
    cases hc : entryCandidate curl e with
    | none =>
      rw [scan_skip rp rest none hc (noBroken_head hnb)]
      rw [candidates_cons_none rest hc] at hempty
      exact ih (noBroken_tail hnb) hempty
    | some c =>
      rw [candidates_cons_some rest hc] at hempty
      cases hempty

/-- Claim C6.  Over the candidates a series-directory listing offers (the
successfully read, name-matching charms, in listing order), `local.Get`:
returns the first candidate with the requested revision; fails with
charm-not-found when an explicit revision matches no candidate; for an
unversioned request (`-1`) returns a candidate of maximal revision when any
candidate exists (e.g. revisions {2,5,9} yield the revision-9 one) and fails
with charm-not-found when none does. -/
theorem localGet_revision_selection :
    (∀ (rp : String) (es : List DirEntry) (curl : CURL) (ch : LCharm),
      curl.schema = "local" → noBroken es →
      (candidates curl es).find?
        (fun c => c.revision == curl.revision) = some ch →
      localGet RootInfo.directory rp (some es) curl = Except.ok ch)
    ∧ (∀ (rp : String) (es : List DirEntry) (curl : CURL),
      curl.schema = "local" → noBroken es → 0 ≤ curl.revision →
      (candidates curl es).find?
        (fun c => c.revision == curl.revision) = none →
      localGet RootInfo.directory rp (some es) curl =
        Except.error (LocalErr.charmNotFound curl rp))
    ∧ (∀ (rp : String) (es : List DirEntry) (curl : CURL),
      curl.schema = "local" → noBroken es → curl.revision = -1 →
      (∀ c ∈ candidates curl es, 0 ≤ c.revision) →
      candidates curl es ≠ [] →
      ∃ ch, localGet RootInfo.directory rp (some es) curl = Except.ok ch ∧
        ch ∈ candidates curl es ∧
        ∀ c ∈ candidates curl es, c.revision ≤ ch.revision)
    ∧ (∀ (rp : String) (es : List DirEntry) (curl : CURL),
      curl.schema = "local" → noBroken es → curl.revision = -1 →
      candidates curl es = [] →
      localGet RootInfo.directory rp (some es) curl =
        Except.error (LocalErr.charmNotFound curl rp))
    ∧ localGet RootInfo.directory "/r"
        (some [DirEntry.plain "wp" true (ReadRes.ok ⟨"wp", 2⟩),
               DirEntry.plain "wp5" true (ReadRes.ok ⟨"wp", 5⟩),
               DirEntry.plain "wp9" true (ReadRes.ok ⟨"wp", 9⟩)])
        { schema := "local", user := "", series := "s", name := "wp",
          revision := -1 } = Except.ok ⟨"wp", 9⟩ := by
  refine ⟨?_, ?_, ?_, ?_, by rfl⟩
  · intro rp es curl ch hsch hnb hf
    simp only [localGet, hsch]
    simpa using scan_find_exact rp hnb hf none
  · intro rp es curl hsch hnb hrev hf
    simp only [localGet, hsch]
    simpa using scan_explicit_nomatch rp hnb hrev hf none
  · intro rp es curl hsch hnb hrev hpos hne
    obtain ⟨ch, hsc, hmem, hmax⟩ := scan_max_none rp hnb hrev hpos hne
    refine ⟨ch, ?_, hmem, hmax⟩
    simp only [localGet, hsch]
    simpa using hsc
  · intro rp es curl hsch hnb hrev hempty
    simp only [localGet, hsch]
    simpa using scan_no_candidates rp hnb hempty hrev

theorem localGet_revision_selection_witness :
    localGet RootInfo.directory "/r"
      (some [DirEntry.plain "wp" true (ReadRes.ok ⟨"wp", 2⟩),
             DirEntry.plain "wp5" true (ReadRes.ok ⟨"wp", 5⟩)])
      { schema := "local", user := "", series := "s", name := "wp",
        revision := 5 } = Except.ok ⟨"wp", 5⟩ :=
  localGet_revision_selection.1 "/r"
    [DirEntry.plain "wp" true (ReadRes.ok ⟨"wp", 2⟩),
     DirEntry.plain "wp5" true (ReadRes.ok ⟨"wp", 5⟩)]
    { schema := "local", user := "", series := "s", name := "wp",
      revision := 5 } ⟨"wp", 5⟩ rfl
    (by intro n r hm; simp at hm) (by decide)

/-- Claim C8, amended.  An entry that fails to read as a charm (or is
filtered out, or does not match the requested name) is skipped and the scan
continues unchanged; but — contrary to the claim as stated — a symbolic link
whose target cannot be stat'ed does not get skipped: it makes the whole scan
fail with that stat error. -/
theorem localGet_skip_unreadable_amended :
    (∀ (curl : CURL) (rp : String) (e : DirEntry)
       (es1 es2 : List DirEntry) (latest : Option LCharm),
      entryCandidate curl e = none →
      (∀ n r, e ≠ DirEntry.symlink n none r) →
      scanEntries curl rp (es1 ++ e :: es2) latest =
        scanEntries curl rp (es1 ++ es2) latest)
    ∧ (∀ (curl : CURL) (rp : String) (n : String) (r : ReadRes)
        (es : List DirEntry) (latest : Option LCharm),
      scanEntries curl rp (DirEntry.symlink n none r :: es) latest =
        Except.error (LocalErr.statFailed n)) := by
  constructor
  · intro curl rp e es1 es2 latest h1 h2
    induction es1 generalizing latest with
    | nil => exact scan_skip rp es2 latest h1 h2
    | cons e1 rest ih =>
      cases e1 with
      | plain n d r =>
        cases hc : entryCandidate curl (DirEntry.plain n d r) with
        | none =>
          rw [List.cons_append, List.cons_append,
            scan_skip rp _ latest hc (by intro n r h; cases h),
            scan_skip rp _ latest hc (by intro n r h; cases h)]
          exact ih latest
        | some c =>
          rw [List.cons_append, List.cons_append,
            scan_cand rp _ latest hc, scan_cand rp _ latest hc]
          by_cases hrev : c.revision = curl.revision
          · rw [if_pos hrev, if_pos hrev]
          · rw [if_neg hrev, if_neg hrev]
            exact ih _
      | symlink n stat r =>
        cases stat with
        | none =>
          rw [List.cons_append, List.cons_append, scan_broken, scan_broken]
        | some d =>
          cases hc : entryCandidate curl (DirEntry.symlink n (some d) r) with
          | none =>
            rw [List.cons_append, List.cons_append,
              scan_skip rp _ latest hc (by intro n2 r2 h; cases h),
              scan_skip rp _ latest hc (by intro n2 r2 h; cases h)]
            exact ih latest
          | some c =>
            rw [List.cons_append, List.cons_append,
              scan_cand rp _ latest hc, scan_cand rp _ latest hc]
            by_cases hrev : c.revision = curl.revision
            · rw [if_pos hrev, if_pos hrev]
            · rw [if_neg hrev, if_neg hrev]
              exact ih _
  · intro curl rp n r es latest
    exact scan_broken curl rp n r es latest

theorem localGet_skip_unreadable_amended_witness :
    scanEntries
      { schema := "local", user := "", series := "s", name := "wp",
        revision := -1 } "/r"
      ([DirEntry.plain "wp9" true (ReadRes.ok ⟨"wp", 9⟩)] ++
        DirEntry.plain "corrupt.charm" false ReadRes.fail ::
          [DirEntry.plain "wp5" true (ReadRes.ok ⟨"wp", 5⟩)]) none =
      scanEntries
        { schema := "local", user := "", series := "s", name := "wp",
          revision := -1 } "/r"
        ([DirEntry.plain "wp9" true (ReadRes.ok ⟨"wp", 9⟩)] ++
          [DirEntry.plain "wp5" true (ReadRes.ok ⟨"wp", 5⟩)]) none :=
  localGet_skip_unreadable_amended.1
    { schema := "local", user := "", series := "s", name := "wp",
      revision := -1 } "/r"
    (DirEntry.plain "corrupt.charm" false ReadRes.fail)
    [DirEntry.plain "wp9" true (ReadRes.ok ⟨"wp", 9⟩)]
    [DirEntry.plain "wp5" true (ReadRes.ok ⟨"wp", 5⟩)] none
    (by decide) (by intro n r h; cases h)

/-- Claim C5.  Both batch operations return exactly one `CharmRevision` per
input, in input order, and each result is a function of its own input alone:
the remote `revisions` maps each `(identity, info)` record to that record's
revision+digest or its own error, and `local.Latest` maps each identity to
its own `Get` outcome — no input's failure disturbs any other result. -/
theorem latest_batch_independent :
    (∀ (xs : List (CURL × InfoResponse)),
      (revisions xs).length = xs.length)
    ∧ (∀ (xs : List (CURL × InfoResponse)) (i : Nat)
        (h1 : i < (revisions xs).length) (h2 : i < xs.length),
        (revisions xs).get ⟨i, h1⟩ =
          revisionOf (xs.get ⟨i, h2⟩).1 (xs.get ⟨i, h2⟩).2)
    ∧ (∀ (curl : CURL) (info : InfoResponse), info.errors = none →
        revisionOf curl info =
          { revision := info.revision, sha256 := info.sha256, err := none })
    ∧ (∀ (curl : CURL) (info : InfoResponse), info.errors ≠ none →
        (revisionOf curl info).err ≠ none)
    ∧ (∀ (get : CURL → Except LocalErr LCharm) (curls : List CURL),
        (localLatest get curls).length = curls.length)
    ∧ (∀ (get : CURL → Except LocalErr LCharm) (curls : List CURL) (i : Nat)
        (h1 : i < (localLatest get curls).length) (h2 : i < curls.length),
        (localLatest get curls).get ⟨i, h1⟩ =
          match get ((curls.get ⟨i, h2⟩).withRevision (-1)) with
          | Except.ok ch => { revision := ch.revision }
          | Except.error e => { err := some e }) := by
  refine ⟨?_, ?_, ?_, ?_, ?_, ?_⟩
  · intro xs
    induction xs with
    | nil => rfl
    | cons x rest ih => simp [revisions, ih]
  · intro xs i h1 h2
    induction xs generalizing i with
    | nil => cases h2
    | cons x rest ih =>
      cases i with
      | zero => rfl
      | succ j =>
        exact ih j (Nat.lt_of_succ_lt_succ h1) (Nat.lt_of_succ_lt_succ h2)
  · intro curl info h
    simp [revisionOf, h]
  · intro curl info h
    simp only [revisionOf]
    cases hs : info.errors with
    | none => exact absurd hs h
    | some es =>
      match es with
      | [] => simp
      | [e] =>
        simp only []
        split <;> simp
      | e1 :: e2 :: rest => simp
  · intro get curls
    induction curls with
    | nil => rfl
    | cons c rest ih => simp [localLatest, ih]
  · intro get curls i h1 h2
    induction curls generalizing i with
    | nil => cases h2
    | cons c rest ih =>
      cases i with
      | zero => rfl
      | succ j =>
        exact ih j (Nat.lt_of_succ_lt_succ h1) (Nat.lt_of_succ_lt_succ h2)

theorem latest_batch_independent_witness :
    (revisions
      [(⟨"cs", "", "s", "a", -1⟩, { revision := 7, sha256 := "aa" }),
       (⟨"cs", "", "s", "b", -1⟩,
        { errors := some ["charm not found: cs:s/b"] })]).get
      ⟨1, by decide⟩ =
      revisionOf ⟨"cs", "", "s", "b", -1⟩
        { errors := some ["charm not found: cs:s/b"] } :=
  latest_batch_independent.2.1
    [(⟨"cs", "", "s", "a", -1⟩, { revision := 7, sha256 := "aa" }),
     (⟨"cs", "", "s", "b", -1⟩,
      { errors := some ["charm not found: cs:s/b"] })]
    1 (by decide) (by decide)

theorem lookup_insertFile_self (fs : FS) (k v : String) :
    lookup (insertFile fs k v) k = some v := by
  simp [insertFile, lookup]

theorem getCached_ok_digest {hash : String → String}
    {path digest : String} {body : Option String} {tmp : String} {fs fs2 : FS}
    {c : String} {dl : Bool}
    (h : getCached hash path digest body tmp fs = Except.ok (fs2, c, dl)) :
    lookup fs2 path = some c ∧ hash c = digest := by
  simp only [getCached] at h
  cases hv : verifyFile hash fs path digest with
  | none =>
    rw [hv] at h
    simp only [finishGet, hv] at h
    cases hl : lookup fs path with
    | none => rw [hl] at h; cases h
    | some c0 =>
      rw [hl] at h
      have hfs2 : fs2 = fs := by cases h; rfl
      have hc : c = c0 := by cases h; rfl
      subst hfs2
      subst hc
      refine ⟨hl, ?_⟩
      simp only [verifyFile, hl] at hv
      by_cases hh : hash c = digest
      · exact hh
      · rw [if_neg hh] at hv; cases hv
  | some e =>
    rw [hv] at h
    cases body with
    | none => cases h
    | some cb =>
      simp only [finishGet] at h
      have hlk : lookup (insertFile (removeKey (insertFile fs tmp cb) tmp)
          path cb) path = some cb := lookup_insertFile_self _ _ _
      simp only [verifyFile, hlk] at h
      by_cases hh : hash cb = digest
      · rw [if_pos hh] at h
        simp only [hlk] at h
        have hfs2 : fs2 =
            insertFile (removeKey (insertFile fs tmp cb) tmp) path cb := by
          cases h; rfl
        have hc : c = cb := by cases h; rfl
        subst hfs2
        subst hc
        exact ⟨hlk, hh⟩
      · rw [if_neg hh] at h
        cases h

theorem getCached_hit {hash : String → String} {path digest : String}
    {body : Option String} {tmp : String} {fs : FS} {c0 : String}
    (hl : lookup fs path = some c0) (hh : hash c0 = digest) :
    getCached hash path digest body tmp fs = Except.ok (fs, c0, false) := by
  have hv : verifyFile hash fs path digest = none := by
    simp [verifyFile, hl, hh]
  simp [getCached, finishGet, hv, hl]

theorem getCached_bad {hash : String → String} {path digest : String}
    {body : Option String} {tmp : String} {fs : FS} {c : String}
    (hv : verifyFile hash fs path digest ≠ none) (hb : body = some c)
    (hc : ¬hash c = digest) :
    getCached hash path digest body tmp fs =
      Except.error (GetErr.badDigest path) := by
  simp only [getCached]
  cases hvv : verifyFile hash fs path digest with
  | none => exact absurd hvv hv
  | some e =>
    rw [hb]
    have hlk : lookup (insertFile (removeKey (insertFile fs tmp c) tmp)
        path c) path = some c := lookup_insertFile_self _ _ _
    simp [finishGet, verifyFile, hlk, hc]

/-- Claim C3.  With the store resolving `(rev, digest)` for the identity and
`path` the cache path of the fully resolved identity: (a) whenever `Get`
succeeds, the file finally at `path` is the returned content and hashes to
`digest`; (b) if the file already at `path` matches the digest, `Get` uses it
directly — no download happens and the filesystem is untouched; (c) otherwise
the downloaded body is written via temp file and rename, re-verified at the
final path, and a digest mismatch makes `Get` fail with the bad-SHA256 error
rather than return the content. -/
theorem charmStoreGet_digest_verified (hash : String → String)
    (cachePath : CURL → String) (rev : Int) (digest : String)
    (body : Option String) (tmp : String) (fs : FS) (curl : CURL)
    (path : String) (hpath : path = cachePath (curl.withRevision rev))
    (hrev : curl.revision = -1 ∨ curl.revision = rev) :
    (∀ (fs2 : FS) (c : String) (dl : Bool),
      charmStoreGet hash cachePath true
          (Except.ok [{ revision := rev, sha256 := digest, err := none }])
          body tmp fs curl = some (Except.ok (fs2, c, dl)) →
      lookup fs2 path = some c ∧ hash c = digest)
    ∧ (∀ c0 : String, lookup fs path = some c0 → hash c0 = digest →
        charmStoreGet hash cachePath true
            (Except.ok [{ revision := rev, sha256 := digest, err := none }])
            body tmp fs curl = some (Except.ok (fs, c0, false)))
    ∧ (verifyFile hash fs path digest ≠ none →
        ∀ c : String, body = some c → ¬hash c = digest →
        charmStoreGet hash cachePath true
            (Except.ok [{ revision := rev, sha256 := digest, err := none }])
            body tmp fs curl =
          some (Except.error (GetErr.badDigest path))) := by
  subst hpath
  have hG : charmStoreGet hash cachePath true
      (Except.ok [{ revision := rev, sha256 := digest, err := none }])
      body tmp fs curl =
      some (getCached hash (cachePath (curl.withRevision rev)) digest
        body tmp fs) := by
    rcases hrev with h | h
    · simp [charmStoreGet, h]
    · have hcurl : curl.withRevision rev = curl := by
        cases curl
        simp only [CURL.withRevision] at h ⊢
        simp [← h]
      by_cases hm1 : curl.revision = -1
      · simp [charmStoreGet, hm1]
      · simp [charmStoreGet, hm1, h, hcurl]
  refine ⟨?_, ?_, ?_⟩
  · intro fs2 c dl h
    rw [hG, Option.some.injEq] at h
    exact getCached_ok_digest h
  · intro c0 hl hh
    rw [hG]
    rw [getCached_hit hl hh]
  · intro hv c hb hc
    rw [hG]
    rw [getCached_bad hv hb hc]

theorem charmStoreGet_digest_verified_witness :
    charmStoreGet (fun s => s) (fun u => u.name) true
        (Except.ok [{ revision := 3, sha256 := "d", err := none }])
        none "t" [("wp", "d")] ⟨"cs", "", "s", "wp", -1⟩ =
      some (Except.ok ([("wp", "d")], "d", false)) :=
  (charmStoreGet_digest_verified (fun s => s) (fun u => u.name) 3 "d"
      none "t" [("wp", "d")] ⟨"cs", "", "s", "wp", -1⟩ "wp" rfl
      (Or.inl rfl)).2.1 "d" rfl rfl

/-- Claim C4.  If the caller's identity carries an explicit revision that
differs from the revision the index resolves, `Get` fails with the
wrong-revision error instead of substituting; an unversioned identity
(revision `-1`) is treated exactly as the identity with the resolved
revision substituted. -/
theorem charmStoreGet_revision_conflict (hash : String → String)
    (cachePath : CURL → String) (rev : Int) (digest : String)
    (body : Option String) (tmp : String) (fs : FS) (curl : CURL) :
    (0 ≤ curl.revision → curl.revision ≠ rev →
      charmStoreGet hash cachePath true
          (Except.ok [{ revision := rev, sha256 := digest, err := none }])
          body tmp fs curl =
        some (Except.error (GetErr.wrongRevision rev curl)))
    ∧ (curl.revision = -1 →
      charmStoreGet hash cachePath true
          (Except.ok [{ revision := rev, sha256 := digest, err := none }])
          body tmp fs curl =
        charmStoreGet hash cachePath true
          (Except.ok [{ revision := rev, sha256 := digest, err := none }])
          body tmp fs (curl.withRevision rev)) := by
  constructor
  · intro hge hne
    have hm1 : ¬(curl.revision = -1) := by omega
    simp [charmStoreGet, hm1, hne]
  · intro h
    have hrev2 : (curl.withRevision rev).revision = rev := rfl
    by_cases h2 : rev = -1
    · simp [charmStoreGet, h, CURL.withRevision, h2]
    · simp [charmStoreGet, h, CURL.withRevision, h2]

theorem charmStoreGet_revision_conflict_witness :
    charmStoreGet (fun s => s) (fun u => u.name) true
        (Except.ok [{ revision := 7, sha256 := "d", err := none }])
        none "t" [] ⟨"cs", "", "s", "wp", 5⟩ =
      some (Except.error
        (GetErr.wrongRevision 7 ⟨"cs", "", "s", "wp", 5⟩)) :=
  (charmStoreGet_revision_conflict (fun s => s) (fun u => u.name) 7 "d"
      none "t" [] ⟨"cs", "", "s", "wp", 5⟩).1 (by decide) (by decide)

/-- Claim C1.  The claim is contradicted by the code: the placement regexp's
second capture group is `(service(/number)?)`, so a service-targeted token
with an explicit unit index parses with `Service` holding the whole
`name/unit` text and `Unit = 0` (`strconv.Atoi("/1")` fails and the error is
discarded).  On the bundle with service "a" (`NumUnits = 5`) and token "a/1"
— which the claim says must be accepted since the target exists and
`1 < 5 - 1` — `Verify` instead reports the token as referring to a
non-existent service, and no unit-bound violation is ever produced. -/
theorem verify_unit_placement_token_misparsed :
    parsePlacement "a/1" =
      some { containerType := "", machine := "", service := "a/1", unit := 0 }
    ∧ verify
        { services := [("a", { charm := "c", numUnits := 5,
                               «to» := ["a/1"], constraints := "" })],
          machines := [], series := "", relations := [] }
        (fun _ => true) (fun _ => true) =
        some [VerifyError.placementServiceNotExist "a/1"] := by
  constructor
  · decide
  · decide

/-- Claim C2.  The claim is contradicted by the code: `verifyRelations`
writes `svcPair[i] = svc` into a two-element array while `i` ranges over the
whole relation entry, so an entry with three (or more) elements raises an
index-out-of-range panic instead of being recorded as a violation, and
`Verify` does not terminate normally (modelled as `none`). -/
theorem verify_panics_on_overlong_relation :
    verify
      { services := [], machines := [], series := "",
        relations := [["a:db", "b:db", "c:db"]] }
      (fun _ => true) (fun _ => true) = none := by
  decide

/-- Claim C9.  The claim is contradicted by the code: because the regexp
captures `service(/number)?` as one group, a token such as "new/0" parses
with `Service = "new/0"` and `Unit = 0` and is returned **without error**;
the `Service == "new"` comparison never sees "new" together with a unit, so
the guarded invalid-placement-syntax branch is unreachable.  Only the bare
token "new" (unit `-1`) is reinterpreted as a new-machine placement. -/
theorem parsePlacement_new_with_unit_accepted :
    parsePlacement "new/0" =
      some { containerType := "", machine := "", service := "new/0", unit := 0 }
    ∧ parsePlacement "lxc:new/2" =
      some { containerType := "lxc", machine := "", service := "new/2",
             unit := 0 }
    ∧ parsePlacement "new" =
      some { containerType := "", machine := "new", service := "", unit := -1 }
    := by
  refine ⟨by decide, by decide, by decide⟩

/-- Claim C8, counterexample.  A directory listing holding a symlink whose
target cannot be stat'ed followed by a perfectly readable matching charm: the
claim says the unreadable entry is skipped and the scan continues, but
`local.Get` aborts with the stat error (`return nil, err`), never reaching
the good candidate; dropping the symlink, the same scan succeeds. -/
theorem localGet_broken_symlink_aborts :
    localGet RootInfo.directory "/repo"
      (some [DirEntry.symlink "dangling" none ReadRes.fail,
             DirEntry.plain "wp.charm" false (ReadRes.ok ⟨"wp", 3⟩)])
      { schema := "local", user := "", series := "precise", name := "wp",
        revision := -1 } =
      Except.error (LocalErr.statFailed "dangling")
    ∧ localGet RootInfo.directory "/repo"
      (some [DirEntry.plain "wp.charm" false (ReadRes.ok ⟨"wp", 3⟩)])
      { schema := "local", user := "", series := "precise", name := "wp",
        revision := -1 } =
      Except.ok ⟨"wp", 3⟩ := by
  constructor
  · rfl
  · rfl

end JujuCharm
